import Mathlib

set_option autoImplicit false

namespace Catalog

/-! ### Python string primitives

The slug algorithms below are translated from `catalog/services/slug_service.py`
and `catalog/_models.py`.  They use Python's `str.strip`, slicing `s[:n]` and
`s.rfind`, which we model here on `List Char` with Python's semantics
(negative slice indices count from the end, `rfind` returns `-1` on a miss). -/

/-- Python `s.strip(chars)`: remove from both ends every character in `chars`. -/
def pyStrip (chars : List Char) (cs : List Char) : List Char :=
  ((cs.dropWhile (fun c => decide (c ∈ chars))).reverse.dropWhile
    (fun c => decide (c ∈ chars))).reverse

/-- Python `s[:n]` (a negative `n` counts from the end of the string). -/
def pySliceTo (cs : List Char) (n : Int) : List Char :=
  if n < 0 then cs.take ((cs.length : Int) + n).toNat else cs.take n.toNat

/-- Auxiliary for `pyRfind`: index of the last occurrence of `c`, if any. -/
def pyRfindAux (c : Char) : List Char → Option Nat
  | [] => none
  | a :: rest =>
    match pyRfindAux c rest with
    | some i => some (i + 1)
    | none => if a = c then some 0 else none

/-- Python `s.rfind(c)`: highest index of `c` in `s`, or `-1` when absent. -/
def pyRfind (c : Char) (cs : List Char) : Int :=
  match pyRfindAux c cs with
  | some i => (i : Int)
  | none => -1

/-! ### Django `slugify`

`django.utils.text.slugify(value)` (the variant used by the repository, with
`allow_unicode=False`): NFKD-normalize and drop non-ASCII characters,
lowercase, delete every character outside `[\w\s-]`, collapse each run of
hyphens/whitespace into a single hyphen, and strip leading/trailing `-`/`_`.
We model it for ASCII text, on which the NFKD + ascii-encode step keeps
ASCII characters unchanged and drops the rest. -/

/-- Python regex `\w` restricted to ASCII: alphanumerics and underscore. -/
def isPyWordChar (c : Char) : Bool := c.isAlphanum || c = '_'

/-- Python regex `\s` restricted to ASCII. -/
def isPySpace (c : Char) : Bool :=
  c = ' ' || c = '\t' || c = '\n' || c = '\r' || c = '\x0b' || c = '\x0c'

/-- A character matched by the collapsing regex `[-\s]+`. -/
def isDashOrSpace (c : Char) : Bool := c = '-' || isPySpace c

/-- Model of `re.sub(r"[-\s]+", "-", s)`: each maximal run of hyphens/whitespace
becomes a single hyphen (a dash-or-space character merges with a hyphen
already produced by the rest of its run). -/
def collapseDashRuns : List Char → List Char
  | [] => []
  | c :: rest =>
    if isDashOrSpace c then
      match collapseDashRuns rest with
      | '-' :: out => '-' :: out
      | out => '-' :: out
    else
      c :: collapseDashRuns rest

/-- Model of `django.utils.text.slugify` for ASCII input (`allow_unicode=False`). -/
def slugify (value : String) : String :=
  let ascii := value.data.filter (fun c => c.toNat < 128)
  let lowered := ascii.map Char.toLower
  let kept := lowered.filter (fun c => isPyWordChar c || isPySpace c || c = '-')
  ⟨pyStrip ['-', '_'] (collapseDashRuns kept)⟩

/-! ### Slug service (`catalog/services/slug_service.py`) -/

/-- Configuration for slug generation (`SlugConfig`). -/
structure SlugConfig where
  max_length : Nat
  uuid_suffix_length : Nat
deriving DecidableEq

/-- Default configuration: `max_length=100`, `uuid_suffix_length=8`. -/
def defaultSlugConfig : SlugConfig := ⟨100, 8⟩

/-- Property `SlugConfig.suffix_length`: total length added by the suffix, dash included. -/
def SlugConfig.suffix_length (cfg : SlugConfig) : Nat := cfg.uuid_suffix_length + 1

/-- The allowed base length `max_length - suffix_length`, computed as the
Python `int` subtraction (it may be negative for degenerate configurations). -/
def SlugConfig.allowed_len (cfg : SlugConfig) : Int :=
  (cfg.max_length : Int) - (cfg.suffix_length : Int)

/-- The cut made by `SlugService._ensure_base_slug_len` before stripping:
`base[:last_dash_in_allowed_len]` when `base[:allowed_len]` contains a dash,
else `base[:allowed_len]`. -/
def truncate_base (cfg : SlugConfig) (base : String) : List Char :=
  let pref := pySliceTo base.data cfg.allowed_len
  let last_dash_in_allowed_len := pyRfind '-' pref
  if last_dash_in_allowed_len ≠ -1 then pySliceTo base.data last_dash_in_allowed_len
  else pref

/-- Model of `SlugService._ensure_base_slug_len`: cut at the last `-` within the limit,
strip leading/trailing dashes, default to `"product"` if empty. -/
def ensure_base_slug_len (cfg : SlugConfig) (base : String) : String :=
  if (base.length : Int) > cfg.allowed_len then
    let truncated := pyStrip ['-'] (truncate_base cfg base)
    if truncated.isEmpty then "product" else ⟨truncated⟩
  else base

/-- Model of `SlugService._suffix_base_slug`: append `-` plus the first
`uuid_suffix_length` characters of a uuid4 hex string.  The random
`uuid.uuid4().hex` value is passed in explicitly. -/
def suffix_base_slug (cfg : SlugConfig) (uuid_hex : String) (base : String) : String :=
  base ++ "-" ++ ⟨uuid_hex.data.take cfg.uuid_suffix_length⟩

/-- Model of `SlugService._make_base`: `slugify(name) or "product"`. -/
def make_base (name : String) : String :=
  let s := slugify name
  if s = "" then "product" else s

/-- The base slug actually probed by the service: normalized then truncated. -/
def service_base (cfg : SlugConfig) (name : String) : String :=
  ensure_base_slug_len cfg (make_base name)

/-- The `i`-th candidate produced by `SlugService._generate_candidate_slugs`:
the bare base first, then suffixed candidates built from the uuid stream. -/
def candidate (cfg : SlugConfig) (uuids : Nat → String) (base : String) : Nat → String
  | 0 => base
  | i + 1 => suffix_base_slug cfg (uuids i) base

/-- The probe loop of `SlugService.generate_unique_slug`, with explicit fuel:
return the first candidate from index `i` on that does not exist. -/
def generate_unique_slug_from (cfg : SlugConfig) (uuids : Nat → String)
    (slug_exists : String → Bool) (base : String) : Nat → Nat → Option String
  | _, 0 => none
  | i, fuel + 1 =>
    let c := candidate cfg uuids base i
    if slug_exists c then generate_unique_slug_from cfg uuids slug_exists base (i + 1) fuel
    else some c

/-- Model of `SlugService.generate_unique_slug`: first candidate slug that does not
exist, where candidate 0 is the normalized-and-truncated base and candidate
`i+1` appends a fresh uuid-hex suffix to that base. -/
def generate_unique_slug (cfg : SlugConfig) (uuids : Nat → String)
    (slug_exists : String → Bool) (name : String) (fuel : Nat) : Option String :=
  generate_unique_slug_from cfg uuids slug_exists (service_base cfg name) 0 fuel

/-- Lowercase hexadecimal digit, as produced by `uuid.uuid4().hex`. -/
def isLowerHex (c : Char) : Bool := c.isDigit || ('a' ≤ c && c ≤ 'f')

/-! ### JSON values and the draft-7 schema engine

The repository validates schema documents and attribute payloads with the
third-party `jsonschema.Draft7Validator` library.  Modelled from the spec:
§9 abstracts that library as an external "schema engine" capability exposing
`check_schema(doc)` and an error iterator yielding `(path, message)` pairs,
any JSON-Schema-draft-7-conformant engine being acceptable.  We implement
that capability for the draft-7 keywords the spec names (`type`,
`properties`, `required`, `items`, `enum`, `minimum`, `maximum`, and the
structural form of `pattern`/`minLength`/`maxLength`); regex matching for
`pattern` is not modelled.  Recursion is by an explicit depth fuel so the
functions evaluate by kernel reduction. -/

/-- JSON documents (numbers restricted to integers, which covers every value
appearing in the repository and its spec). -/
inductive Json where
  | null
  | bool (b : Bool)
  | num (n : Int)
  | str (s : String)
  | arr (elems : List Json)
  | obj (fields : List (String × Json))

mutual

/-- Structural equality of JSON values (Python `==` on parsed JSON). -/
def Json.beq : Json → Json → Bool
  | .null, .null => true
  | .bool a, .bool b => a == b
  | .num a, .num b => a == b
  | .str a, .str b => a == b
  | .arr as, .arr bs => Json.beqList as bs
  | .obj fs, .obj gs => Json.beqFields fs gs
  | _, _ => false

/-- Elementwise equality of JSON arrays. -/
def Json.beqList : List Json → List Json → Bool
  | [], [] => true
  | a :: as, b :: bs => Json.beq a b && Json.beqList as bs
  | _, _ => false

/-- Entrywise equality of JSON object field lists. -/
def Json.beqFields : List (String × Json) → List (String × Json) → Bool
  | [], [] => true
  | (k, v) :: fs, (l, w) :: gs => k == l && Json.beq v w && Json.beqFields fs gs
  | _, _ => false

end

instance : BEq Json := ⟨Json.beq⟩

/-- Does a list contain two equal elements (draft-7 `uniqueItems` failure)? -/
def hasDup : List Json → Bool
  | [] => false
  | x :: xs => xs.contains x || hasDup xs

/-- Python `dict` lookup on the field list of a JSON object. -/
def lookupField : List (String × Json) → String → Option Json
  | [], _ => none
  | (k, v) :: rest, key => if k = key then some v else lookupField rest key

/-- Python `schema.get(key)`: `None` when the key is absent. -/
def Json.get? : Json → String → Option Json
  | .obj fields, key => lookupField fields key
  | _, _ => none

/-- Python truthiness of a JSON value. -/
def Json.truthy : Json → Bool
  | .null => false
  | .bool b => b
  | .num n => n != 0
  | .str s => s != ""
  | .arr xs => !xs.isEmpty
  | .obj fs => !fs.isEmpty

/-- The seven draft-7 primitive type names. -/
def primitiveTypes : List String :=
  ["array", "boolean", "integer", "null", "number", "object", "string"]

/-- A JSON value admissible inside a `type` array. -/
def isSchemaTypeName : Json → Bool
  | .str s => primitiveTypes.contains s
  | _ => false

/-- Structural check of one draft-7 schema keyword; `check` validates nested
subschemas.  Unknown keywords are ignored, as draft-7 prescribes. -/
def checkKeyword (check : Json → Bool) : String → Json → Bool
  | "type", .str s => primitiveTypes.contains s
  | "type", .arr ts => !ts.isEmpty && ts.all isSchemaTypeName && !hasDup ts
  | "type", _ => false
  | "properties", .obj props => props.all (fun kv => check kv.2)
  | "properties", _ => false
  | "required", .arr xs =>
      xs.all (fun x => match x with | .str _ => true | _ => false) && !hasDup xs
  | "required", _ => false
  | "items", .arr ss => ss.all check
  | "items", v => check v
  | "enum", .arr _ => true
  | "enum", _ => false
  | "minimum", .num _ => true
  | "minimum", _ => false
  | "maximum", .num _ => true
  | "maximum", _ => false
  | "pattern", .str _ => true
  | "pattern", _ => false
  | "minLength", .num n => decide (0 ≤ n)
  | "minLength", _ => false
  | "maxLength", .num n => decide (0 ≤ n)
  | "maxLength", _ => false
  | _, _ => true

/-- Modelled from the spec: `Draft7Validator.check_schema` — a structurally
valid schema document is a boolean or an object whose known keywords are all
well-formed, recursively. -/
def checkSchema : Nat → Json → Bool
  | 0, _ => false
  | _ + 1, .bool _ => true
  | fuel + 1, .obj fields => fields.all (fun kv => checkKeyword (checkSchema fuel) kv.1 kv.2)
  | _ + 1, _ => false

/-- Draft-7 `type` matching of an instance against one primitive type name. -/
def typeMatches (inst : Json) : String → Bool
  | "object" => match inst with | .obj _ => true | _ => false
  | "array" => match inst with | .arr _ => true | _ => false
  | "string" => match inst with | .str _ => true | _ => false
  | "integer" => match inst with | .num _ => true | _ => false
  | "number" => match inst with | .num _ => true | _ => false
  | "boolean" => match inst with | .bool _ => true | _ => false
  | "null" => match inst with | .null => true | _ => false
  | _ => false

/-- Violations contributed by a single keyword of an object schema; `validate`
recursively collects the violations of a subschema.  Each violation is an
absolute path (component list) with a message, as the engine's error iterator
yields. -/
def keywordErrors (validate : Json → Json → List (List String × String)) :
    String → Json → Json → List (List String × String)
  | "type", .str t, inst =>
      if typeMatches inst t then [] else [([], "instance is not of type " ++ t)]
  | "type", .arr ts, inst =>
      if ts.any (fun t => match t with | .str s => typeMatches inst s | _ => false) then []
      else [([], "instance does not match any type in the list")]
  | "required", .arr xs, .obj fields =>
      xs.foldr (fun x acc =>
        match x with
        | .str key =>
          (match lookupField fields key with
           | some _ => acc
           | none => ([], "'" ++ key ++ "' is a required property") :: acc)
        | _ => acc) []
  | "properties", .obj props, .obj fields =>
      props.foldr (fun kv acc =>
        match lookupField fields kv.1 with
        | some value => ((validate kv.2 value).map (fun e => (kv.1 :: e.1, e.2))) ++ acc
        | none => acc) []
  | "items", .arr ss, .arr elems =>
      ((ss.zip elems).enum.map (fun p =>
        (validate p.2.1 p.2.2).map (fun e => (toString p.1 :: e.1, e.2)))).flatten
  | "items", .obj s, .arr elems =>
      (elems.enum.map (fun p =>
        (validate (.obj s) p.2).map (fun e => (toString p.1 :: e.1, e.2)))).flatten
  | "items", .bool s, .arr elems =>
      (elems.enum.map (fun p =>
        (validate (.bool s) p.2).map (fun e => (toString p.1 :: e.1, e.2)))).flatten
  | "enum", .arr vs, inst =>
      if vs.contains inst then [] else [([], "instance is not one of the enumerated values")]
  | "minimum", .num m, .num n =>
      if n < m then [([], "instance is less than the minimum of " ++ toString m)] else []
  | "maximum", .num m, .num n =>
      if m < n then [([], "instance is greater than the maximum of " ++ toString m)] else []
  | "minLength", .num m, .str s =>
      if (s.length : Int) < m then [([], "string is too short")] else []
  | "maxLength", .num m, .str s =>
      if m < (s.length : Int) then [([], "string is too long")] else []
  | _, _, _ => []

/-- Modelled from the spec: the engine's error iterator
(`Draft7Validator.iter_errors`) — collect every constraint violation of the
instance with its absolute path, for the supported keyword subset. -/
def iterErrors : Nat → Json → Json → List (List String × String)
  | 0, _, _ => []
  | _ + 1, .bool b, _ => if b then [] else [([], "boolean schema False allows nothing")]
  | fuel + 1, .obj fields, inst =>
      (fields.map (fun kv => keywordErrors (iterErrors fuel) kv.1 kv.2 inst)).flatten
  | _ + 1, _, _ => []

/-- Lexicographic order on violation paths, as Python compares the error-path
deques when `validate_attributes` sorts the errors. -/
def pathLe : List String → List String → Bool
  | [], _ => true
  | _ :: _, [] => false
  | a :: as, b :: bs => if a = b then pathLe as bs else decide (a < b)

/-- Stable insertion of one violation into a path-sorted list: the new entry
goes after existing entries with a path less than or equal to its own. -/
def insertByPath (acc : List (List String × String)) (e : List String × String) :
    List (List String × String) :=
  match acc with
  | [] => [e]
  | x :: rest => if pathLe x.1 e.1 then x :: insertByPath rest e else e :: x :: rest

/-- Python `sorted(errors, key=lambda e: e.path)` (a stable sort). -/
def sortErrors (l : List (List String × String)) : List (List String × String) :=
  l.foldl insertByPath []

/-- Field-keyed validation failures, as carried by the raised errors:
`SchemaError` data keyed to the schema field, or the per-field message lists
of an attribute-validation failure. -/
inductive VErr where
  | schemaErr (field : String) (msg : String)
  | attrErr (errors : List (String × List String))
deriving DecidableEq

instance {ε α : Type} [DecidableEq ε] [DecidableEq α] : DecidableEq (Except ε α) := fun a b =>
  match a, b with
  | .ok x, .ok y =>
    if h : x = y then isTrue (congrArg Except.ok h)
    else isFalse (fun he => h (Except.ok.inj he))
  | .error x, .error y =>
    if h : x = y then isTrue (congrArg Except.error h)
    else isFalse (fun he => h (Except.error.inj he))
  | .ok _, .error _ => isFalse (fun he => Except.noConfusion he)
  | .error _, .ok _ => isFalse (fun he => Except.noConfusion he)

/-- Model of `SchemaValidator.validate_schema` (identical in
`services/validators/schema.py` and `_models.py`): check the schema document,
then require a present-and-truthy top-level `type` to equal `"object"`. -/
def validate_schema (fuel : Nat) (schema : Json) : Except VErr Unit :=
  if !checkSchema fuel schema then
    .error (.schemaErr "attributes_schema" "SchemaError")
  else
    match schema.get? "type" with
    | some t =>
      if t.truthy && t != .str "object" then
        .error (.schemaErr "attributes_schema" "Top-level type must be 'object'.")
      else .ok ()
    | none => .ok ()

/-- Python `".".join(str(p) for p in err.path) or "__all__"`. -/
def dottedPath (path : List String) : String :=
  let joined := String.intercalate "." path
  if joined = "" then "__all__" else joined

/-- One step of building the error dict:
`error_dict.setdefault(field, []).append(err.message)`. -/
def insertMsg (d : List (String × List String)) (field msg : String) :
    List (String × List String) :=
  match d with
  | [] => [(field, [msg])]
  | (f, ms) :: rest =>
    if f = field then (f, ms ++ [msg]) :: rest else (f, ms) :: insertMsg rest field msg

/-- The field-keyed error mapping assembled by `validate_attributes`. -/
def buildErrorDict (errs : List (List String × String)) : List (String × List String) :=
  errs.foldl (fun d e => insertMsg d (dottedPath e.1) e.2) []

/-- Model of `SchemaValidator.validate_attributes`
(`services/validators/schema.py`): re-validate the schema, then collect the
instance's violations sorted by path into a field-keyed error mapping. -/
def validate_attributes (fuel : Nat) (schema attributes : Json) : Except VErr Unit :=
  match validate_schema fuel schema with
  | .error e => .error e
  | .ok _ =>
    let errors := sortErrors (iterErrors fuel schema attributes)
    if errors.isEmpty then .ok ()
    else .error (.attrErr (buildErrorDict errors))

/-- The spec's example schema:
`{"type":"object","properties":{"ram":{"type":"integer"}},"required":["ram"]}`. -/
def ramSchema : Json :=
  .obj [("type", .str "object"),
        ("properties", .obj [("ram", .obj [("type", .str "integer")])]),
        ("required", .arr [.str "ram"])]

/-! ### Products, the variant arena and the variant validator

Products form a graph through `variant_of`, possibly cyclic, so (following
the spec's own design note) we represent them as an arena: a list of records
whose parent links are arena indices.  The validators are translated from
`catalog/services/validators/variant.py`. -/

/-- The `ProductType` data a product dereferences during a save. -/
structure ProductTypeRec where
  category_type : String
  subcategory_type : String
  attributes_schema : Json

/-- An in-memory `Product` instance.  `pk` is the database key (`None` before
the first save), `objId` the ephemeral Python `id(...)` token, `category` and
`subcategory` the cached `_category`/`_subcategory` fields, and `variant_of`
the arena index of the parent, if any. -/
structure ProductRec where
  pk : Option Nat
  objId : Nat
  name : String
  slug : String
  category : String
  subcategory : String
  attributes : Json
  product_type_id : Nat
  product_type : ProductTypeRec
  variant_of : Option Nat

/-- Python truthiness of a primary key (`None` and `0` are falsy). -/
def truthyPk : Option Nat → Bool
  | some k => k != 0
  | none => false

/-- Model of `product.pk or id(product)`: the stable identifier when truthy,
else the ephemeral per-object token. -/
def pkey (p : ProductRec) : Nat :=
  match p.pk with
  | some k => if k = 0 then p.objId else k
  | none => p.objId

/-- Outcome of `VariantValidator.validate_chain`: normal return, the raised
`CircularVariantError` carrying the two colliding keys, or fuel exhaustion
(never reached, as proved below). -/
inductive ChainResult where
  | ok
  | circular (productKey parentKey : Nat)
  | fuelOut
deriving DecidableEq

/-- The `while parent_of_product:` loop of `VariantValidator.validate_chain`,
with the `seen_parents` set as a list and explicit fuel. -/
def validate_chain_loop (arena : List ProductRec) (product_key : Nat) :
    List Nat → Option Nat → Nat → ChainResult
  | _, none, _ => .ok
  | _, some _, 0 => .fuelOut
  | seen, some pidx, fuel + 1 =>
    match arena[pidx]? with
    | none => .ok
    | some parent =>
      let parent_key := pkey parent
      if parent_key = product_key || seen.contains parent_key then
        .circular product_key parent_key
      else
        validate_chain_loop arena product_key (parent_key :: seen) parent.variant_of fuel

/-- Model of `VariantValidator.validate_chain` for the product stored at
`idx`. -/
def validate_chain (arena : List ProductRec) (idx : Nat) (fuel : Nat) : ChainResult :=
  match arena[idx]? with
  | none => .ok
  | some p => validate_chain_loop arena (pkey p) [] p.variant_of fuel

/-- Outcome of `VariantValidator.validate_integrity`: normal return, the
raised `SelfVariantError`, or the raised `VariantTypeMismatchError`. -/
inductive IntegrityResult where
  | ok
  | selfVariant
  | typeMismatch
deriving DecidableEq

/-- Model of `VariantValidator.validate_integrity` for the product stored at
`idx`. -/
def validate_integrity (arena : List ProductRec) (idx : Nat) : IntegrityResult :=
  match arena[idx]? with
  | none => .ok
  | some p =>
    match p.variant_of with
    | none => .ok
    | some pidx =>
      match arena[pidx]? with
      | none => .ok
      | some parent =>
        if truthyPk p.pk && truthyPk parent.pk && p.pk == parent.pk then
          .selfVariant
        else if parent.product_type_id != p.product_type_id then
          .typeMismatch
        else .ok

/-- The cursor after `k` steps of following `variant_of` links. -/
def ancestorIdx (arena : List ProductRec) : Option Nat → Nat → Option Nat
  | cur, 0 => cur
  | cur, k + 1 =>
    match cur with
    | none => none
    | some i =>
      match arena[i]? with
      | none => none
      | some p => ancestorIdx arena p.variant_of k

/-- Test fixture: a persisted three-node cycle A→B→C→A. -/
def arenaABC : List ProductRec :=
  [⟨some 1, 101, "A", "a", "", "", .obj [], 1, ⟨"cat", "", .obj []⟩, some 1⟩,
   ⟨some 2, 102, "B", "b", "", "", .obj [], 1, ⟨"cat", "", .obj []⟩, some 2⟩,
   ⟨some 3, 103, "C", "c", "", "", .obj [], 1, ⟨"cat", "", .obj []⟩, some 0⟩]

/-- Test fixture: a valid three-level chain with one product type. -/
def arenaChain3 : List ProductRec :=
  [⟨some 1, 101, "root", "r", "", "", .obj [], 1, ⟨"cat", "", .obj []⟩, none⟩,
   ⟨some 2, 102, "mid", "m", "", "", .obj [], 1, ⟨"cat", "", .obj []⟩, some 0⟩,
   ⟨some 3, 103, "leaf", "l", "", "", .obj [], 1, ⟨"cat", "", .obj []⟩, some 1⟩]

/-- Test fixture: a persisted parent of type 1 with a child of type 2. -/
def arenaCrossType : List ProductRec :=
  [⟨some 1, 101, "parent", "p", "", "", .obj [], 1, ⟨"cat", "", .obj []⟩, none⟩,
   ⟨some 2, 102, "child", "c", "", "", .obj [], 2, ⟨"cat2", "", .obj []⟩, some 0⟩]

/-- Test fixture: a persisted product that is its own variant parent. -/
def arenaSelf : List ProductRec :=
  [⟨some 5, 105, "selfie", "s", "", "", .obj [], 1, ⟨"cat", "", .obj []⟩, some 0⟩]

/-- Test fixture: an unsaved product (`pk = None`) referencing itself. -/
def arenaUnsaved : List ProductRec :=
  [⟨none, 42, "X", "", "", "", .obj [], 1, ⟨"cat", "", .obj []⟩, some 0⟩]

/-! ### The Product save flow (`catalog/_models.py`) -/

/-- The persisted product rows the save flow touches: `(pk, slug)` pairs. -/
abbrev Db := List (Nat × String)

/-- Model of `Product._slug_exists`: any row carries this slug, the product's
own row excluded when it has a truthy pk. -/
def slug_exists (db : Db) (pk : Option Nat) (slug : String) : Bool :=
  let qs := db.filter (fun r => r.2 == slug)
  let qs := if truthyPk pk then qs.filter (fun r => !(some r.1 == pk)) else qs
  !qs.isEmpty

/-- The `while self._slug_exists(slug)` loop of `Product._generate_unique_slug`
with explicit fuel.  Unlike the slug service, each collision suffixes the
previous candidate, so suffixes compound. -/
def models_slug_loop (cfg : SlugConfig) (uuids : Nat → String) (db : Db) (pk : Option Nat) :
    Nat → Nat → String → Option String
  | _, 0, slug => if slug_exists db pk slug then none else some slug
  | i, fuel + 1, slug =>
    if slug_exists db pk slug then
      models_slug_loop cfg uuids db pk (i + 1) fuel (suffix_base_slug cfg (uuids i) slug)
    else some slug

/-- Model of `Product._generate_unique_slug` (`_models.py`): slugify with
`"product"` fallback, truncate, then suffix until free. -/
def models_generate_unique_slug (cfg : SlugConfig) (uuids : Nat → String) (db : Db)
    (pk : Option Nat) (name : String) (fuel : Nat) : Option String :=
  models_slug_loop cfg uuids db pk 0 fuel (service_base cfg name)

/-- Model of `Product._sync_categories`: refresh each cached category field on
first save (`not self.pk`) or when it differs from the referenced type. -/
def sync_categories (p : ProductRec) : ProductRec :=
  let p1 :=
    if !truthyPk p.pk || p.category != p.product_type.category_type then
      {p with category := p.product_type.category_type}
    else p
  if !truthyPk p1.pk || p1.subcategory != p1.product_type.subcategory_type then
    {p1 with subcategory := p1.product_type.subcategory_type}
  else p1

/-- The observable steps of one `Product.save`, in execution order. -/
inductive Ev where
  | slugStep
  | denorm
  | chainCheck
  | integrityCheck
  | schemaCheck
  | commitStep
deriving DecidableEq

/-- A failure aborting a save. -/
inductive SaveError where
  | circular (a b : Nat)
  | selfVariant
  | typeMismatch
  | schemaInvalid
  | attributesInvalid
  | slugFuelOut
  | chainFuelOut
deriving DecidableEq

/-- The outcome of one save: the raised error if any, the record store
afterwards, the in-memory instance afterwards (reflecting every mutation made
before a failure, as in Python), and the executed steps. -/
structure SaveOut where
  error : Option SaveError
  db : Db
  inst : ProductRec
  trace : List Ev

/-- Model of the attribute validation inside `Product.clean` (`_models.py`):
`SchemaValidator.validate_attributes` validates the schema, then the
instance; a schema failure propagates and an instance violation is caught and
re-raised keyed to the attributes field. -/
def models_validate_attributes (fuel : Nat) (schema attributes : Json) : Option SaveError :=
  match validate_schema fuel schema with
  | .error _ => some .schemaInvalid
  | .ok _ =>
    if (iterErrors fuel schema attributes).isEmpty then none else some .attributesInvalid

/-- The next primary key the record store assigns. -/
def newPk (db : Db) : Nat := (db.foldr (fun r m => max r.1 m) 0) + 1

/-- Model of the final `super().save(...)`: update the own row in place when a
pk exists, else insert a fresh row and assign the new pk to the instance. -/
def commitRow (db : Db) (p : ProductRec) : Db × ProductRec :=
  match p.pk with
  | some k => (db.map (fun r => if r.1 = k then (k, p.slug) else r), p)
  | none =>
    let k := newPk db
    (db ++ [(k, p.slug)], {p with pk := some k})

/-- Model of `Product.save` (`catalog/_models.py`): ensure a unique slug when
the current one is empty or taken, denormalize the cached category fields,
run `full_clean` (variant chain, variant integrity, then attribute
validation), and only then commit.  The saved product is `arena[idx]`. -/
def Product_save (cfg : SlugConfig) (uuids : Nat → String) (arena : List ProductRec)
    (idx : Nat) (db : Db) (slugFuel chainFuel schemaFuel : Nat) : SaveOut :=
  match arena[idx]? with
  | none => ⟨none, db, ⟨none, 0, "", "", "", "", .obj [], 0, ⟨"", "", .obj []⟩, none⟩, []⟩
  | some p =>
    let slugRes : Option String :=
      if p.slug == "" || slug_exists db p.pk p.slug then
        models_generate_unique_slug cfg uuids db p.pk p.name slugFuel
      else some p.slug
    match slugRes with
    | none => ⟨some .slugFuelOut, db, p, [.slugStep]⟩
    | some s =>
      let p2 := sync_categories {p with slug := s}
      match validate_chain arena idx chainFuel with
      | .circular a b => ⟨some (.circular a b), db, p2, [.slugStep, .denorm, .chainCheck]⟩
      | .fuelOut => ⟨some .chainFuelOut, db, p2, [.slugStep, .denorm, .chainCheck]⟩
      | .ok =>
        match validate_integrity arena idx with
        | .selfVariant =>
          ⟨some .selfVariant, db, p2, [.slugStep, .denorm, .chainCheck, .integrityCheck]⟩
        | .typeMismatch =>
          ⟨some .typeMismatch, db, p2, [.slugStep, .denorm, .chainCheck, .integrityCheck]⟩
        | .ok =>
          match models_validate_attributes schemaFuel p2.product_type.attributes_schema
              p2.attributes with
          | some e =>
            ⟨some e, db, p2,
             [.slugStep, .denorm, .chainCheck, .integrityCheck, .schemaCheck]⟩
          | none =>
            let committed := commitRow db p2
            ⟨none, committed.1, committed.2,
             [.slugStep, .denorm, .chainCheck, .integrityCheck, .schemaCheck, .commitStep]⟩

/-- Test fixture: a constant uuid4-hex stream. -/
def hexStream : Nat → String := fun _ => "0123456789abcdef0123456789abcdef"

/-- Test fixture: an unsaved product whose attributes violate its type's
schema (`ram` bound to a string). -/
def saveArenaBad : List ProductRec :=
  [⟨none, 7, "Phone", "", "", "", .obj [("ram", .str "8")], 1,
    ⟨"Electronics", "Phones", ramSchema⟩, none⟩]

/-- Test fixture: the same product with conforming attributes. -/
def saveArenaGood : List ProductRec :=
  [⟨none, 7, "Phone", "", "", "", .obj [("ram", .num 8)], 1,
    ⟨"Electronics", "Phones", ramSchema⟩, none⟩]

/-! ### Lemmas about the Python string primitives -/

theorem pyStrip_head? {chars cs : List Char} {c : Char}
    (h : (pyStrip chars cs).head? = some c) : c ∉ chars := by
  unfold pyStrip at h
  rw [List.head?_reverse] at h
  obtain ⟨t, ht⟩ := List.dropWhile_suffix
    (l := (cs.dropWhile (fun c => decide (c ∈ chars))).reverse) (fun c => decide (c ∈ chars))
  have hlast : (cs.dropWhile (fun c => decide (c ∈ chars))).reverse.getLast? = some c := by
    rw [← ht, List.getLast?_append, h]
    rfl
  rw [List.getLast?_reverse] at hlast
  have hd := List.head?_dropWhile_not (fun c => decide (c ∈ chars)) cs
  rw [hlast] at hd
  simpa using hd

theorem pyStrip_getLast? {chars cs : List Char} {c : Char}
    (h : (pyStrip chars cs).getLast? = some c) : c ∉ chars := by
  unfold pyStrip at h
  rw [List.getLast?_reverse] at h
  have hd := List.head?_dropWhile_not (fun c => decide (c ∈ chars))
    (cs.dropWhile (fun c => decide (c ∈ chars))).reverse
  rw [h] at hd
  simpa using hd

theorem pyStrip_length_le (chars cs : List Char) : (pyStrip chars cs).length ≤ cs.length := by
  unfold pyStrip
  rw [List.length_reverse]
  have h1 := (List.dropWhile_sublist (l := (cs.dropWhile (fun c => decide (c ∈ chars))).reverse)
    (fun c => decide (c ∈ chars))).length_le
  have h2 := (List.dropWhile_sublist (l := cs) (fun c => decide (c ∈ chars))).length_le
  rw [List.length_reverse] at h1
  omega

theorem pyStrip_ne_nil {chars cs : List Char} {c : Char}
    (hh : cs.head? = some c) (hc : c ∉ chars) : pyStrip chars cs ≠ [] := by
  unfold pyStrip
  intro h
  rw [List.reverse_eq_nil_iff, List.dropWhile_eq_nil_iff] at h
  cases cs with
  | nil => simp at hh
  | cons a t =>
    simp only [List.head?_cons, Option.some.injEq] at hh
    subst hh
    rw [List.dropWhile_cons_of_neg (by simpa using hc)] at h
    have ha := h a (by simp)
    simp at ha
    exact hc ha

theorem pySliceTo_nonneg (cs : List Char) {n : Int} (h : 0 ≤ n) :
    pySliceTo cs n = cs.take n.toNat := by
  unfold pySliceTo
  rw [if_neg (by omega)]

theorem length_pySliceTo_le (cs : List Char) {n : Int} (h : 0 ≤ n) :
    ((pySliceTo cs n).length : Int) ≤ n := by
  rw [pySliceTo_nonneg cs h]
  have := List.length_take_le n.toNat cs
  omega

theorem head?_pySliceTo (cs : List Char) {n : Int} (h : 1 ≤ n) :
    (pySliceTo cs n).head? = cs.head? := by
  rw [pySliceTo_nonneg cs (by omega), List.head?_take, if_neg (by omega)]

theorem pySliceTo_ne_nil (cs : List Char) {n : Int} (h1 : 1 ≤ n) (h2 : cs ≠ []) :
    pySliceTo cs n ≠ [] := by
  intro h
  have hh := congrArg List.head? h
  rw [head?_pySliceTo cs h1] at hh
  simp only [List.head?_nil, List.head?_eq_none_iff] at hh
  exact h2 hh

theorem pyRfindAux_lt_length {c : Char} :
    ∀ {cs : List Char} {i : Nat}, pyRfindAux c cs = some i → i < cs.length := by
  intro cs
  induction cs with
  | nil => intro i h; simp [pyRfindAux] at h
  | cons a t ih =>
    intro i h
    unfold pyRfindAux at h
    cases hrec : pyRfindAux c t with
    | some j =>
      rw [hrec] at h
      have := ih hrec
      simp only [Option.some.injEq] at h
      subst h
      simp only [List.length_cons]
      omega
    | none =>
      rw [hrec] at h
      by_cases ha : a = c
      · rw [if_pos ha] at h
        simp only [Option.some.injEq] at h
        subst h
        simp
      · rw [if_neg ha] at h
        exact absurd h (by simp)

theorem pyRfindAux_zero {c : Char} {cs : List Char}
    (h : pyRfindAux c cs = some 0) : cs.head? = some c := by
  cases cs with
  | nil => simp [pyRfindAux] at h
  | cons a t =>
    unfold pyRfindAux at h
    cases hrec : pyRfindAux c t with
    | some j => rw [hrec] at h; simp at h
    | none =>
      rw [hrec] at h
      by_cases ha : a = c
      · subst ha; simp
      · rw [if_neg ha] at h; exact absurd h (by simp)

/-! ### Invariants of the slug base computation -/

theorem truncate_base_facts (cfg : SlugConfig) (base : String)
    (hallow : 1 ≤ cfg.allowed_len)
    (hne : base.data ≠ [])
    (hhead : ∀ c, base.data.head? = some c → c ≠ '-') :
    (truncate_base cfg base).head? = base.data.head?
    ∧ ((truncate_base cfg base).length : Int) ≤ cfg.allowed_len
    ∧ truncate_base cfg base ≠ [] := by
  unfold truncate_base
  simp only [pyRfind]
  cases hfind : pyRfindAux '-' (pySliceTo base.data cfg.allowed_len) with
  | none =>
    dsimp only
    rw [if_neg (by simp)]
    exact ⟨head?_pySliceTo base.data hallow,
      length_pySliceTo_le base.data (by omega),
      pySliceTo_ne_nil base.data hallow hne⟩
  | some i =>
    dsimp only
    rw [if_pos (show (i : Int) ≠ -1 by omega)]
    have hi1 : 1 ≤ i := by
      rcases Nat.eq_zero_or_pos i with h0 | h1
      · subst h0
        have := pyRfindAux_zero hfind
        rw [head?_pySliceTo base.data hallow] at this
        exact absurd rfl (hhead '-' this)
      · exact h1
    have hilen := pyRfindAux_lt_length hfind
    have hpreflen : ((pySliceTo base.data cfg.allowed_len).length : Int) ≤ cfg.allowed_len :=
      length_pySliceTo_le base.data (by omega)
    have hi1i : (1 : Int) ≤ (i : Int) := by exact_mod_cast hi1
    refine ⟨head?_pySliceTo base.data hi1i, ?_, ?_⟩
    · have := length_pySliceTo_le base.data (n := (i : Int)) (by omega)
      omega
    · exact pySliceTo_ne_nil base.data hi1i hne

theorem ensure_base_invariants (cfg : SlugConfig) (base : String)
    (hallow : 1 ≤ cfg.allowed_len)
    (hne : base.data ≠ [])
    (hhead : ∀ c, base.data.head? = some c → c ≠ '-')
    (hlast : ∀ c, base.data.getLast? = some c → c ≠ '-') :
    ((ensure_base_slug_len cfg base).length : Int) ≤ cfg.allowed_len
    ∧ (ensure_base_slug_len cfg base).data ≠ []
    ∧ (∀ c, (ensure_base_slug_len cfg base).data.head? = some c → c ≠ '-')
    ∧ (∀ c, (ensure_base_slug_len cfg base).data.getLast? = some c → c ≠ '-') := by
  by_cases hlen : (base.length : Int) > cfg.allowed_len
  · obtain ⟨hth, htl, htn⟩ := truncate_base_facts cfg base hallow hne hhead
    obtain ⟨c0, hc0⟩ : ∃ c, base.data.head? = some c := by
      cases hb : base.data with
      | nil => exact absurd hb hne
      | cons a t => exact ⟨a, by simp⟩
    have hstrip_ne : pyStrip ['-'] (truncate_base cfg base) ≠ [] := by
      refine pyStrip_ne_nil (c := c0) ?_ ?_
      · rw [hth]
        exact hc0
      · simpa using hhead c0 hc0
    have hemp : (pyStrip ['-'] (truncate_base cfg base)).isEmpty = false := by
      cases hsp : pyStrip ['-'] (truncate_base cfg base) with
      | nil => exact absurd hsp hstrip_ne
      | cons a t => rfl
    have he : ensure_base_slug_len cfg base = ⟨pyStrip ['-'] (truncate_base cfg base)⟩ := by
      simp only [ensure_base_slug_len]
      rw [if_pos hlen, hemp]
      simp
    rw [he]
    have hslen : (pyStrip ['-'] (truncate_base cfg base)).length ≤
        (truncate_base cfg base).length := pyStrip_length_le _ _
    refine ⟨?_, hstrip_ne, ?_, ?_⟩
    · show ((pyStrip ['-'] (truncate_base cfg base)).length : Int) ≤ cfg.allowed_len
      omega
    · intro c hc
      have := pyStrip_head? hc
      simpa using this
    · intro c hc
      have := pyStrip_getLast? hc
      simpa using this
  · have he : ensure_base_slug_len cfg base = base := by
      simp only [ensure_base_slug_len]
      rw [if_neg hlen]
    rw [he]
    exact ⟨by omega, hne, hhead, hlast⟩

theorem make_base_facts (name : String) :
    (make_base name).data ≠ []
    ∧ (∀ c, (make_base name).data.head? = some c → c ≠ '-')
    ∧ (∀ c, (make_base name).data.getLast? = some c → c ≠ '-') := by
  unfold make_base
  by_cases h : slugify name = ""
  · rw [if_pos h]
    refine ⟨by decide, ?_, ?_⟩
    · intro c hc
      simp only [show ("product" : String).data = ['p','r','o','d','u','c','t'] from rfl] at hc
      simp at hc
      subst hc
      decide
    · intro c hc
      simp only [show ("product" : String).data = ['p','r','o','d','u','c','t'] from rfl] at hc
      simp at hc
      subst hc
      decide
  · rw [if_neg h]
    have hdata : (slugify name).data =
        pyStrip ['-', '_'] (collapseDashRuns
          (((name.data.filter (fun c => c.toNat < 128)).map Char.toLower).filter
            (fun c => isPyWordChar c || isPySpace c || c = '-'))) := rfl
    refine ⟨?_, ?_, ?_⟩
    · intro hnil
      exact h (String.ext (by rw [hnil]))
    · intro c hc
      rw [hdata] at hc
      have := pyStrip_head? hc
      simp at this
      exact fun hd => this.1 hd
    · intro c hc
      rw [hdata] at hc
      have := pyStrip_getLast? hc
      simp at this
      exact fun hd => this.1 hd

theorem service_base_invariants (cfg : SlugConfig) (name : String)
    (hallow : 1 ≤ cfg.allowed_len) :
    ((service_base cfg name).length : Int) ≤ cfg.allowed_len
    ∧ (service_base cfg name).data ≠ []
    ∧ (∀ c, (service_base cfg name).data.head? = some c → c ≠ '-')
    ∧ (∀ c, (service_base cfg name).data.getLast? = some c → c ≠ '-') := by
  obtain ⟨h1, h2, h3⟩ := make_base_facts name
  exact ensure_base_invariants cfg (make_base name) hallow h1 h2 h3

/-- Any slug returned by the probing loop is an unused candidate. -/
theorem gen_from_some (cfg : SlugConfig) (uuids : Nat → String) (ex : String → Bool)
    (base : String) :
    ∀ (fuel i : Nat) (c : String),
      generate_unique_slug_from cfg uuids ex base i fuel = some c →
      ex c = false ∧ ∃ j, i ≤ j ∧ c = candidate cfg uuids base j := by
  intro fuel
  induction fuel with
  | zero =>
    intro i c h
    simp [generate_unique_slug_from] at h
  | succ f ih =>
    intro i c h
    simp only [generate_unique_slug_from] at h
    by_cases hex : ex (candidate cfg uuids base i) = true
    · rw [if_pos hex] at h
      obtain ⟨h1, j, hj, hc⟩ := ih (i + 1) c h
      exact ⟨h1, j, by omega, hc⟩
    · rw [if_neg hex] at h
      injection h with h
      subst h
      exact ⟨by simpa using hex, i, Nat.le_refl i, rfl⟩

/-- C1: `generate_unique_slug` probes the normalized-and-truncated base first
and returns it unchanged (no suffix) when `exists(base)` is false; otherwise
any returned slug has the form `base ++ "-" ++ s` with `s` an 8-character
lowercase-hex token, and every returned slug `c` satisfies `exists c = false`. -/
theorem C1_generate_unique_slug_unused (cfg : SlugConfig) (uuids : Nat → String)
    (ex : String → Bool) (name : String) (fuel : Nat)
    (huuid : ∀ i, (uuids i).data.length = 32 ∧ ∀ ch ∈ (uuids i).data, isLowerHex ch = true)
    (hsuf : cfg.uuid_suffix_length = 8) :
    (ex (service_base cfg name) = false → 1 ≤ fuel →
      generate_unique_slug cfg uuids ex name fuel = some (service_base cfg name))
    ∧ (∀ c, generate_unique_slug cfg uuids ex name fuel = some c → ex c = false)
    ∧ (ex (service_base cfg name) = true →
      ∀ c, generate_unique_slug cfg uuids ex name fuel = some c →
        ∃ s : String, c = service_base cfg name ++ "-" ++ s ∧ s.length = 8
          ∧ ∀ ch ∈ s.data, isLowerHex ch = true) := by
  refine ⟨?_, ?_, ?_⟩
  · intro hex hfuel
    obtain ⟨f, rfl⟩ : ∃ f, fuel = f + 1 := ⟨fuel - 1, by omega⟩
    unfold generate_unique_slug
    simp only [generate_unique_slug_from, candidate, hex]
    rfl
  · intro c h
    exact (gen_from_some cfg uuids ex _ fuel 0 c h).1
  · intro hex c h
    obtain ⟨h1, j, _, hc⟩ := gen_from_some cfg uuids ex _ fuel 0 c h
    cases j with
    | zero =>
      rw [hc, show candidate cfg uuids (service_base cfg name) 0 = service_base cfg name
        from rfl, hex] at h1
      exact absurd h1 (by simp)
    | succ k =>
      refine ⟨⟨(uuids k).data.take cfg.uuid_suffix_length⟩, ?_, ?_, ?_⟩
      · rw [hc]; rfl
      · show ((uuids k).data.take cfg.uuid_suffix_length).length = 8
        rw [List.length_take, (huuid k).1, hsuf]
        decide
      · intro ch hch
        exact (huuid k).2 ch (List.take_subset _ _ hch)

/-- Witness for C1 at the spec's own example: `exists("apple-macbook-pro")` is
true, the first suffixed candidate is free, and the returned slug is unused. -/
theorem C1_witness :
    generate_unique_slug ⟨100, 8⟩ (fun _ => "0123456789abcdef0123456789abcdef")
      (fun s => s == "apple-macbook-pro") "Apple MacBook Pro" 2 =
      some "apple-macbook-pro-01234567"
    ∧ (fun s : String => s == "apple-macbook-pro") "apple-macbook-pro-01234567" = false := by
  have hgen : generate_unique_slug ⟨100, 8⟩ (fun _ => "0123456789abcdef0123456789abcdef")
      (fun s => s == "apple-macbook-pro") "Apple MacBook Pro" 2 =
      some "apple-macbook-pro-01234567" := by decide
  refine ⟨hgen, ?_⟩
  have hu : ("0123456789abcdef0123456789abcdef" : String).data.length = 32
      ∧ ∀ ch ∈ ("0123456789abcdef0123456789abcdef" : String).data, isLowerHex ch = true := by
    decide
  exact (C1_generate_unique_slug_unused ⟨100, 8⟩ (fun _ => "0123456789abcdef0123456789abcdef")
    (fun s => s == "apple-macbook-pro") "Apple MacBook Pro" 2
    (fun _ => hu) rfl).2.1 _ hgen

/-- C2: the base is slugify-normalized with `"product"` fallback when the
normalization is empty; after truncation it is at most
`allowed_len = max_length - (suffix_id_length + 1)` characters and neither
starts nor ends with a hyphen. -/
theorem C2_base_slug_truncation (cfg : SlugConfig) (name : String)
    (hallow : 1 ≤ cfg.allowed_len) :
    (slugify name = "" → make_base name = "product")
    ∧ ((service_base cfg name).length : Int) ≤ cfg.allowed_len
    ∧ (∀ c, (service_base cfg name).data.head? = some c → c ≠ '-')
    ∧ (∀ c, (service_base cfg name).data.getLast? = some c → c ≠ '-') := by
  obtain ⟨h1, _, h3, h4⟩ := service_base_invariants cfg name hallow
  refine ⟨?_, h1, h3, h4⟩
  intro h
  unfold make_base
  rw [if_pos h]

/-- Witness for C2 at the spec's example (`max_length=20`, `suffix_id_length=8`,
name `"Super Long Product Name Here"`): the base is at most 11 characters, and
is in fact `"super-long"`. -/
theorem C2_witness :
    ((service_base ⟨20, 8⟩ "Super Long Product Name Here").length : Int) ≤
      (SlugConfig.mk 20 8).allowed_len
    ∧ service_base ⟨20, 8⟩ "Super Long Product Name Here" = "super-long" :=
  ⟨(C2_base_slug_truncation ⟨20, 8⟩ "Super Long Product Name Here" (by decide)).2.1,
   by decide⟩

/-- C9: under the default configuration (`max_length=100`,
`suffix_id_length=8`) every slug returned by `generate_unique_slug` is at most
100 characters: the truncated base is at most 91 and a suffixed candidate adds
exactly a hyphen plus 8 hex characters. -/
theorem C9_slug_length_bound (uuids : Nat → String) (ex : String → Bool)
    (name : String) (fuel : Nat) (c : String)
    (huuid : ∀ i, (uuids i).data.length = 32)
    (h : generate_unique_slug defaultSlugConfig uuids ex name fuel = some c) :
    (service_base defaultSlugConfig name).length ≤ 91 ∧ c.length ≤ 100 := by
  have hbase := (service_base_invariants defaultSlugConfig name (by decide)).1
  have hallow : defaultSlugConfig.allowed_len = 91 := by decide
  have hb91 : (service_base defaultSlugConfig name).length ≤ 91 := by omega
  refine ⟨hb91, ?_⟩
  obtain ⟨_, j, _, hc⟩ := gen_from_some defaultSlugConfig uuids ex _ fuel 0 c h
  cases j with
  | zero =>
    rw [hc]
    show (service_base defaultSlugConfig name).length ≤ 100
    omega
  | succ k =>
    rw [hc]
    show (service_base defaultSlugConfig name ++ "-" ++
      (⟨(uuids k).data.take 8⟩ : String)).length ≤ 100
    rw [String.length_append, String.length_append]
    have h8 : ((⟨(uuids k).data.take 8⟩ : String)).length = 8 := by
      show ((uuids k).data.take 8).length = 8
      rw [List.length_take, huuid k]
      decide
    have hd : ("-" : String).length = 1 := rfl
    omega

/-- Witness for C9: a concrete generation returning `"apple-macbook-pro"`,
whose length is within both bounds. -/
theorem C9_witness :
    (service_base defaultSlugConfig "Apple MacBook Pro").length ≤ 91
    ∧ ("apple-macbook-pro" : String).length ≤ 100 := by
  have hu : ("0123456789abcdef0123456789abcdef" : String).data.length = 32 := by decide
  exact C9_slug_length_bound (fun _ => "0123456789abcdef0123456789abcdef")
    (fun _ => false) "Apple MacBook Pro" 1 "apple-macbook-pro"
    (fun _ => hu) (by decide)

/-! ### Lemmas about the schema validator -/

theorem lookupField_mem : ∀ {fields : List (String × Json)} {key : String} {v : Json},
    lookupField fields key = some v → (key, v) ∈ fields := by
  intro fields
  induction fields with
  | nil => intro key v h; simp [lookupField] at h
  | cons kv rest ih =>
    intro key v h
    obtain ⟨k, w⟩ := kv
    simp only [lookupField] at h
    by_cases hk : k = key
    · subst hk
      rw [if_pos rfl] at h
      injection h with h
      subst h
      exact List.mem_cons_self _ _
    · rw [if_neg hk] at h
      exact List.mem_cons_of_mem _ (ih h)

theorem json_beq_str {t : Json} {s : String} : (t == Json.str s) = true ↔ t = .str s := by
  cases t <;> simp [BEq.beq, Json.beq]

/-- A schema that passes `check_schema` and carries a `type` keyword carries a
truthy one (valid type strings are non-empty, valid type arrays non-empty). -/
theorem checkSchema_type_truthy {fuel : Nat} {s t : Json}
    (hc : checkSchema fuel s = true) (ht : s.get? "type" = some t) : t.truthy = true := by
  cases fuel with
  | zero => simp [checkSchema] at hc
  | succ f =>
    cases s with
    | obj fields =>
      simp only [checkSchema, List.all_eq_true] at hc
      have hmem : ("type", t) ∈ fields := lookupField_mem ht
      have hk := hc ("type", t) hmem
      cases t with
      | str u =>
        simp only [checkKeyword] at hk
        have hu : u ∈ primitiveTypes := by simpa using hk
        fin_cases hu <;> decide
      | arr ts =>
        simp only [checkKeyword, Bool.and_eq_true] at hk
        simpa [Json.truthy] using hk.1.1
      | null => simp [checkKeyword] at hk
      | bool b => simp [checkKeyword] at hk
      | num n => simp [checkKeyword] at hk
      | obj fs => simp [checkKeyword] at hk
    | null => simp [checkSchema] at hc
    | bool b => simp [Json.get?] at ht
    | num n => simp [checkSchema] at hc
    | str u => simp [checkSchema] at hc
    | arr es => simp [checkSchema] at hc

theorem validate_schema_ok_iff (fuel : Nat) (s : Json) :
    validate_schema fuel s = .ok () ↔
      (checkSchema fuel s = true
        ∧ (s.get? "type" = none ∨ s.get? "type" = some (.str "object"))) := by
  cases hc : checkSchema fuel s with
  | false => simp [validate_schema, hc]
  | true =>
    simp only [validate_schema, hc, Bool.not_true, Bool.false_eq_true, if_false]
    cases hg : s.get? "type" with
    | none => simp
    | some t =>
      dsimp only
      by_cases hobj : t = Json.str "object"
      · subst hobj
        rw [if_neg (by decide)]
        simp
      · have htr : t.truthy = true := checkSchema_type_truthy hc hg
        rw [if_pos (by
          rw [Bool.and_eq_true, htr]
          refine ⟨rfl, ?_⟩
          simp only [bne]
          cases hbe : (t == Json.str "object") with
          | false => rfl
          | true => exact absurd (json_beq_str.mp hbe) hobj)]
        simp [hobj]

theorem validate_schema_error_shape (fuel : Nat) (s : Json) (e : VErr)
    (h : validate_schema fuel s = .error e) :
    ∃ msg, e = .schemaErr "attributes_schema" msg := by
  unfold validate_schema at h
  by_cases hc : checkSchema fuel s
  · rw [hc] at h
    simp only [Bool.not_true, Bool.false_eq_true, if_false] at h
    cases hg : s.get? "type" with
    | none => rw [hg] at h; simp at h
    | some t =>
      rw [hg] at h
      dsimp only at h
      by_cases hcond : (t.truthy && t != Json.str "object") = true
      · rw [if_pos hcond] at h
        injection h with h
        exact ⟨_, h.symm⟩
      · rw [if_neg hcond] at h
        simp at h
  · rw [Bool.not_eq_true] at hc
    rw [hc] at h
    simp only [Bool.not_false, if_true] at h
    injection h with h
    exact ⟨_, h.symm⟩

/-- C4: `validate_schema` fails with a `SchemaError` keyed to the schema field
exactly when the document is not a structurally valid draft-7 schema or its
top-level `type` is present and not `"object"`; in particular
`{"type": "array"}` fails while the empty schema succeeds. -/
theorem C4_validate_schema (fuel : Nat) (s : Json) :
    (validate_schema fuel s = .ok () ↔
      (checkSchema fuel s = true
        ∧ (s.get? "type" = none ∨ s.get? "type" = some (.str "object"))))
    ∧ (∀ e, validate_schema fuel s = .error e →
        ∃ msg, e = .schemaErr "attributes_schema" msg)
    ∧ validate_schema 2 (Json.obj [("type", Json.str "array")]) =
        .error (.schemaErr "attributes_schema" "Top-level type must be 'object'.")
    ∧ validate_schema 2 (Json.obj []) = .ok () :=
  ⟨validate_schema_ok_iff fuel s,
   fun e h => validate_schema_error_shape fuel s e h,
   by decide, by decide⟩

/-- Witness for C4: the two concrete conclusions, produced by the theorem. -/
theorem C4_witness :
    validate_schema 2 (Json.obj [("type", Json.str "array")]) =
      .error (.schemaErr "attributes_schema" "Top-level type must be 'object'.")
    ∧ (∃ msg, (VErr.schemaErr "attributes_schema" "Top-level type must be 'object'." : VErr) =
        .schemaErr "attributes_schema" msg)
    ∧ validate_schema 2 (Json.obj []) = .ok () := by
  have h1 := C4_validate_schema 2 (Json.obj [("type", Json.str "array")])
  exact ⟨h1.2.2.1, h1.2.1 _ h1.2.2.1, h1.2.2.2⟩

theorem insertMsg_count (d : List (String × List String)) (f m : String) :
    ((insertMsg d f m).map (fun kv => kv.2.length)).sum =
      (d.map (fun kv => kv.2.length)).sum + 1 := by
  induction d with
  | nil => simp [insertMsg]
  | cons kv rest ih =>
    obtain ⟨g, ms⟩ := kv
    simp only [insertMsg]
    by_cases hg : g = f
    · rw [if_pos hg]
      simp
      omega
    · rw [if_neg hg]
      simp [ih]
      omega

theorem buildErrorDict_count_aux (errs : List (List String × String)) :
    ∀ d : List (String × List String),
      (((errs.foldl (fun d e => insertMsg d (dottedPath e.1) e.2) d).map
        (fun kv => kv.2.length)).sum) =
      (d.map (fun kv => kv.2.length)).sum + errs.length := by
  induction errs with
  | nil => intro d; simp
  | cons e rest ih =>
    intro d
    simp only [List.foldl_cons, List.length_cons]
    rw [ih, insertMsg_count]
    omega

theorem buildErrorDict_count (errs : List (List String × String)) :
    ((buildErrorDict errs).map (fun kv => kv.2.length)).sum = errs.length := by
  unfold buildErrorDict
  rw [buildErrorDict_count_aux]
  simp

theorem insertByPath_length (acc : List (List String × String)) (e : List String × String) :
    (insertByPath acc e).length = acc.length + 1 := by
  induction acc with
  | nil => simp [insertByPath]
  | cons x rest ih =>
    simp only [insertByPath]
    by_cases hx : pathLe x.1 e.1 = true
    · rw [if_pos hx]
      simp [ih]
    · rw [if_neg hx]
      simp

theorem sortErrors_length_aux (l : List (List String × String)) :
    ∀ acc, (l.foldl insertByPath acc).length = acc.length + l.length := by
  induction l with
  | nil => intro acc; simp
  | cons e rest ih =>
    intro acc
    simp only [List.foldl_cons, List.length_cons]
    rw [ih, insertByPath_length]
    omega

theorem sortErrors_length (l : List (List String × String)) :
    (sortErrors l).length = l.length := by
  unfold sortErrors
  rw [sortErrors_length_aux]
  simp

/-- C5: `validate_attributes` first re-runs `validate_schema` (propagating its
failures unchanged); for a valid schema it succeeds exactly when the engine
reports no violation, and on failure the field-keyed error mapping carries one
message per violated constraint; the spec's `ram` example behaves as stated,
with the failing message at path `ram`. -/
theorem C5_validate_attributes (fuel : Nat) (schema inst : Json) :
    (∀ e, validate_schema fuel schema = .error e →
      validate_attributes fuel schema inst = .error e)
    ∧ (validate_schema fuel schema = .ok () →
      (validate_attributes fuel schema inst = .ok () ↔ iterErrors fuel schema inst = []))
    ∧ (∀ d, validate_attributes fuel schema inst = .error (.attrErr d) →
      (d.map (fun kv => kv.2.length)).sum = (iterErrors fuel schema inst).length)
    ∧ validate_attributes 3 ramSchema (.obj [("ram", .num 8)]) = .ok ()
    ∧ validate_attributes 3 ramSchema (.obj [("ram", .str "8")]) =
        .error (.attrErr [("ram", ["instance is not of type integer"])]) := by
  refine ⟨?_, ?_, ?_, by decide, by decide⟩
  · intro e h
    unfold validate_attributes
    rw [h]
  · intro h
    unfold validate_attributes
    rw [h]
    constructor
    · intro hok
      by_cases hemp : (sortErrors (iterErrors fuel schema inst)).isEmpty = true
      · have : (sortErrors (iterErrors fuel schema inst)).length = 0 := by
          rw [List.isEmpty_iff] at hemp
          rw [hemp]
          rfl
        rw [sortErrors_length] at this
        exact List.eq_nil_of_length_eq_zero this
      · rw [if_neg hemp] at hok
        simp at hok
    · intro he
      rw [if_pos (by rw [he]; rfl)]
  · intro d h
    cases hv : validate_schema fuel schema with
    | error e =>
      unfold validate_attributes at h
      rw [hv] at h
      injection h with h
      obtain ⟨msg, hmsg⟩ := validate_schema_error_shape fuel schema e hv
      rw [hmsg] at h
      exact absurd h.symm (by simp)
    | ok u =>
      unfold validate_attributes at h
      rw [hv] at h
      by_cases hemp : (sortErrors (iterErrors fuel schema inst)).isEmpty = true
      · rw [if_pos hemp] at h
        simp at h
      · rw [if_neg hemp] at h
        injection h with h
        injection h.symm with h
        rw [h, buildErrorDict_count, sortErrors_length]

/-- Witness for C5: the `ram` round-trip, produced through the theorem. -/
theorem C5_witness :
    validate_attributes 3 ramSchema (.obj [("ram", .num 8)]) = .ok ()
    ∧ (validate_attributes 3 ramSchema (.obj [("ram", .num 8)]) = .ok () ↔
        iterErrors 3 ramSchema (.obj [("ram", .num 8)]) = [])
    ∧ validate_attributes 3 ramSchema (.obj [("ram", .str "8")]) =
        .error (.attrErr [("ram", ["instance is not of type integer"])]) := by
  have h := C5_validate_attributes 3 ramSchema (.obj [("ram", .num 8)])
  have h2 := C5_validate_attributes 3 ramSchema (.obj [("ram", .str "8")])
  exact ⟨h.2.2.2.1, h.2.1 (by decide), h2.2.2.2.2⟩

/-! ### Lemmas about the variant validator -/

theorem nodup_length_le {seen l : List Nat} (hnd : seen.Nodup)
    (hsub : ∀ k ∈ seen, k ∈ l) : seen.length ≤ l.dedup.length := by
  have h1 : seen.toFinset.card = seen.length := List.toFinset_card_of_nodup hnd
  have h2 : seen.toFinset ⊆ l.toFinset := by
    intro x hx
    rw [List.mem_toFinset] at hx ⊢
    exact hsub x hx
  have h3 := Finset.card_le_card h2
  rw [h1, List.card_toFinset] at h3
  exact h3

theorem chain_loop_no_fuelOut (arena : List ProductRec) (product_key : Nat) :
    ∀ (fuel : Nat) (seen : List Nat) (cur : Option Nat),
      seen.Nodup →
      (∀ k ∈ seen, k ∈ arena.map pkey) →
      (arena.map pkey).dedup.length + 1 ≤ fuel + seen.length →
      validate_chain_loop arena product_key seen cur fuel ≠ .fuelOut := by
  intro fuel
  induction fuel with
  | zero =>
    intro seen cur hnd hsub hlen
    cases cur with
    | none => simp [validate_chain_loop]
    | some pidx =>
      exfalso
      have := nodup_length_le hnd hsub
      omega
  | succ f ih =>
    intro seen cur hnd hsub hlen
    cases cur with
    | none => simp [validate_chain_loop]
    | some pidx =>
      simp only [validate_chain_loop]
      cases hget : arena[pidx]? with
      | none => simp
      | some parent =>
        dsimp only
        by_cases hcirc : (pkey parent = product_key || seen.contains (pkey parent)) = true
        · rw [if_pos hcirc]
          simp
        · rw [if_neg hcirc]
          have hnotin : pkey parent ∉ seen := by
            simp only [Bool.or_eq_true, decide_eq_true_eq] at hcirc
            push_neg at hcirc
            intro hmem
            exact absurd (by simpa using hmem) (by simpa using hcirc.2)
          apply ih
          · exact List.Nodup.cons hnotin hnd
          · intro k hk
            cases hk with
            | head => exact List.mem_map_of_mem pkey (List.getElem?_mem hget)
            | tail _ h => exact hsub k h
          · simp only [List.length_cons]
            omega

theorem validate_chain_terminates (arena : List ProductRec) (idx fuel : Nat)
    (hfuel : arena.length + 1 ≤ fuel) :
    validate_chain arena idx fuel ≠ .fuelOut := by
  unfold validate_chain
  cases hget : arena[idx]? with
  | none => simp
  | some p =>
    dsimp only
    apply chain_loop_no_fuelOut
    · exact List.nodup_nil
    · simp
    · have h1 : (arena.map pkey).dedup.length ≤ (arena.map pkey).length :=
        ((arena.map pkey).dedup_sublist).length_le
      rw [List.length_map] at h1
      simp only [List.length_nil]
      omega

theorem chain_loop_ok_reaches_null (arena : List ProductRec) (product_key : Nat) :
    ∀ (fuel : Nat) (seen : List Nat) (cur : Option Nat),
      validate_chain_loop arena product_key seen cur fuel = .ok →
      ∃ k, k ≤ fuel ∧ ancestorIdx arena cur k = none := by
  intro fuel
  induction fuel with
  | zero =>
    intro seen cur h
    cases cur with
    | none => exact ⟨0, Nat.le_refl 0, rfl⟩
    | some pidx => simp [validate_chain_loop] at h
  | succ f ih =>
    intro seen cur h
    cases cur with
    | none => exact ⟨0, by omega, rfl⟩
    | some pidx =>
      simp only [validate_chain_loop] at h
      cases hget : arena[pidx]? with
      | none =>
        refine ⟨1, by omega, ?_⟩
        simp [ancestorIdx, hget]
      | some parent =>
        rw [hget] at h
        dsimp only at h
        by_cases hcirc : (pkey parent = product_key || seen.contains (pkey parent)) = true
        · rw [if_pos hcirc] at h
          exact absurd h (by simp)
        · rw [if_neg hcirc] at h
          obtain ⟨k, hk, hnone⟩ := ih _ _ h
          refine ⟨k + 1, by omega, ?_⟩
          simp only [ancestorIdx, hget]
          exact hnone

theorem ancestorIdx_none (arena : List ProductRec) : ∀ k, ancestorIdx arena none k = none := by
  intro k
  cases k with
  | zero => rfl
  | succ n => rfl

theorem ancestorIdx_add (arena : List ProductRec) :
    ∀ (a : Nat) (cur : Option Nat) (b : Nat),
      ancestorIdx arena cur (a + b) = ancestorIdx arena (ancestorIdx arena cur a) b := by
  intro a
  induction a with
  | zero =>
    intro cur b
    simp [ancestorIdx, Nat.zero_add]
  | succ n ih =>
    intro cur b
    have hshift : n + 1 + b = (n + b) + 1 := by omega
    cases cur with
    | none =>
      rw [ancestorIdx_none, ancestorIdx_none, ancestorIdx_none]
    | some i =>
      cases hget : arena[i]? with
      | none =>
        rw [hshift]
        simp [ancestorIdx, hget, ancestorIdx_none]
      | some p =>
        rw [hshift]
        simp only [ancestorIdx, hget]
        exact ih p.variant_of b

theorem ancestor_cycle_not_null (arena : List ProductRec) (idx k : Nat) (hk : 1 ≤ k)
    (hcyc : ancestorIdx arena (some idx) k = some idx) :
    ∀ m, ancestorIdx arena (some idx) m ≠ none := by
  have hper : ∀ n, ancestorIdx arena (some idx) (n * k) = some idx := by
    intro n
    induction n with
    | zero => simp [ancestorIdx]
    | succ n ihn =>
      have hmul : (n + 1) * k = n * k + k := by ring
      rw [hmul, ancestorIdx_add, ihn, hcyc]
  intro m hnone
  have hm : ancestorIdx arena (some idx) ((m + 1) * k) = some idx := hper (m + 1)
  have hge : m ≤ (m + 1) * k := by
    have : (m + 1) * 1 ≤ (m + 1) * k := Nat.mul_le_mul_left (m + 1) hk
    omega
  obtain ⟨j, hj⟩ : ∃ j, (m + 1) * k = m + j := ⟨(m + 1) * k - m, by omega⟩
  rw [hj, ancestorIdx_add, hnone, ancestorIdx_none] at hm
  exact Option.noConfusion hm

/-- C6: on a finite variant graph the chain walk always terminates (enough
fuel is never exhausted); a walk that returns normally has reached a null
parent; and a `variant_of` cycle through the validated product is reported as
a `CircularVariantError` — in particular from every node of a cycle. -/
theorem C6_validate_chain (arena : List ProductRec) (idx fuel : Nat)
    (hfuel : arena.length + 1 ≤ fuel) :
    (validate_chain arena idx fuel ≠ .fuelOut)
    ∧ (validate_chain arena idx fuel = .ok →
        ∃ k, 1 ≤ k ∧ k ≤ fuel + 1 ∧ ancestorIdx arena (some idx) k = none)
    ∧ (∀ k, 1 ≤ k → ancestorIdx arena (some idx) k = some idx →
        ∃ a b, validate_chain arena idx fuel = .circular a b) := by
  refine ⟨validate_chain_terminates arena idx fuel hfuel, ?_, ?_⟩
  · intro hok
    unfold validate_chain at hok
    cases hget : arena[idx]? with
    | none =>
      refine ⟨1, by omega, by omega, ?_⟩
      simp [ancestorIdx, hget]
    | some p =>
      rw [hget] at hok
      dsimp only at hok
      obtain ⟨k, hk, hnone⟩ := chain_loop_ok_reaches_null arena (pkey p) fuel [] p.variant_of hok
      refine ⟨k + 1, by omega, by omega, ?_⟩
      simp only [ancestorIdx, hget]
      exact hnone
  · intro k hk hcyc
    cases hres : validate_chain arena idx fuel with
    | circular a b => exact ⟨a, b, rfl⟩
    | fuelOut => exact absurd hres (validate_chain_terminates arena idx fuel hfuel)
    | ok =>
      exfalso
      unfold validate_chain at hres
      cases hget : arena[idx]? with
      | none =>
        rw [hget] at hres
        have h1 : ancestorIdx arena (some idx) k ≠ some idx := by
          obtain ⟨k', rfl⟩ : ∃ k', k = k' + 1 := ⟨k - 1, by omega⟩
          simp [ancestorIdx, hget, ancestorIdx_none]
        exact h1 hcyc
      | some p =>
        rw [hget] at hres
        dsimp only at hres
        obtain ⟨m, _, hnone⟩ := chain_loop_ok_reaches_null arena (pkey p) fuel [] p.variant_of hres
        have : ancestorIdx arena (some idx) (m + 1) = none := by
          rw [show m + 1 = 1 + m from by omega]
          rw [ancestorIdx_add]
          simp only [ancestorIdx, hget]
          exact hnone
        exact ancestor_cycle_not_null arena idx k hk hcyc (m + 1) this

/-- Witness for C6: the cycle A→B→C→A is rejected from each of A, B and C,
and the valid three-level chain reaches its root. -/
theorem C6_witness :
    (validate_chain arenaABC 0 4 ≠ .fuelOut)
    ∧ (∃ a b, validate_chain arenaABC 0 4 = .circular a b)
    ∧ (∃ a b, validate_chain arenaABC 1 4 = .circular a b)
    ∧ (∃ a b, validate_chain arenaABC 2 4 = .circular a b)
    ∧ (∃ k, 1 ≤ k ∧ k ≤ 5 ∧ ancestorIdx arenaChain3 (some 2) k = none) := by
  have h0 := C6_validate_chain arenaABC 0 4 (by decide)
  have h1 := C6_validate_chain arenaABC 1 4 (by decide)
  have h2 := C6_validate_chain arenaABC 2 4 (by decide)
  have h3 := C6_validate_chain arenaChain3 2 4 (by decide)
  exact ⟨h0.1, h0.2.2 3 (by decide) (by decide), h1.2.2 3 (by decide) (by decide),
    h2.2.2 3 (by decide) (by decide), h3.2.1 (by decide)⟩

/-- C7: `validate_integrity` returns normally when `variant_of` is null;
raises `SelfVariantError` when the product and its parent both carry truthy
stable identifiers and those identifiers coincide; and raises
`VariantTypeMismatchError` when the parent's product type differs (the
self-variant check, which precedes it, not firing). -/
theorem C7_validate_integrity (arena : List ProductRec) (idx : Nat) (p : ProductRec)
    (hp : arena[idx]? = some p) :
    (p.variant_of = none → validate_integrity arena idx = .ok)
    ∧ (∀ pidx parent, p.variant_of = some pidx → arena[pidx]? = some parent →
        truthyPk p.pk = true → truthyPk parent.pk = true → p.pk = parent.pk →
        validate_integrity arena idx = .selfVariant)
    ∧ (∀ pidx parent, p.variant_of = some pidx → arena[pidx]? = some parent →
        parent.product_type_id ≠ p.product_type_id →
        ¬(truthyPk p.pk = true ∧ truthyPk parent.pk = true ∧ p.pk = parent.pk) →
        validate_integrity arena idx = .typeMismatch) := by
  refine ⟨?_, ?_, ?_⟩
  · intro hnone
    unfold validate_integrity
    rw [hp]
    dsimp only
    rw [hnone]
  · intro pidx parent hvo hparent ht1 ht2 heq
    unfold validate_integrity
    rw [hp]
    dsimp only
    rw [hvo]
    dsimp only
    rw [hparent]
    dsimp only
    rw [if_pos (by
      rw [Bool.and_eq_true, Bool.and_eq_true]
      exact ⟨⟨ht1, ht2⟩, by rw [heq]; simp⟩)]
  · intro pidx parent hvo hparent hty hnself
    unfold validate_integrity
    rw [hp]
    dsimp only
    rw [hvo]
    dsimp only
    rw [hparent]
    dsimp only
    rw [if_neg (by
      rw [Bool.and_eq_true, Bool.and_eq_true]
      intro hcond
      exact hnself ⟨hcond.1.1, hcond.1.2, by
        have := hcond.2
        simpa using this⟩)]
    rw [if_pos (by simpa using hty)]

/-- Witness for C7: a cross-type variant is rejected, a persisted
self-variant is rejected, and a root with no parent passes. -/
theorem C7_witness :
    validate_integrity arenaCrossType 1 = .typeMismatch
    ∧ validate_integrity arenaSelf 0 = .selfVariant
    ∧ validate_integrity arenaChain3 0 = .ok := by
  have hx := C7_validate_integrity arenaCrossType 1
    ⟨some 2, 102, "child", "c", "", "", .obj [], 2, ⟨"cat2", "", .obj []⟩, some 0⟩ rfl
  have hs := C7_validate_integrity arenaSelf 0
    ⟨some 5, 105, "selfie", "s", "", "", .obj [], 1, ⟨"cat", "", .obj []⟩, some 0⟩ rfl
  have hr := C7_validate_integrity arenaChain3 0
    ⟨some 1, 101, "root", "r", "", "", .obj [], 1, ⟨"cat", "", .obj []⟩, none⟩ rfl
  refine ⟨?_, ?_, hr.1 rfl⟩
  · exact hx.2.2 0 ⟨some 1, 101, "parent", "p", "", "", .obj [], 1, ⟨"cat", "", .obj []⟩, none⟩
      rfl rfl (by decide) (by decide)
  · exact hs.2.1 0 ⟨some 5, 105, "selfie", "s", "", "", .obj [], 1, ⟨"cat", "", .obj []⟩, some 0⟩
      rfl rfl (by decide) (by decide) rfl

/-- C10: an unsaved product (no stable identifier) whose `variant_of` is the
very same in-memory object is still rejected by `validate_chain`, which
reports the circular error using the ephemeral per-object token, while
`validate_integrity`'s self-reference check is skipped and it returns
normally. -/
theorem C10_unsaved_self_reference (arena : List ProductRec) (idx : Nat) (p : ProductRec)
    (hp : arena[idx]? = some p) (hpk : p.pk = none) (hself : p.variant_of = some idx)
    (fuel : Nat) (hfuel : 1 ≤ fuel) :
    validate_chain arena idx fuel = .circular p.objId p.objId
    ∧ validate_integrity arena idx = .ok := by
  have hkey : pkey p = p.objId := by
    unfold pkey
    rw [hpk]
  constructor
  · obtain ⟨f, rfl⟩ : ∃ f, fuel = f + 1 := ⟨fuel - 1, by omega⟩
    unfold validate_chain
    rw [hp]
    dsimp only
    rw [hself]
    simp only [validate_chain_loop]
    rw [hp]
    dsimp only
    rw [if_pos (by simp)]
    rw [hkey]
  · unfold validate_integrity
    rw [hp]
    dsimp only
    rw [hself]
    dsimp only
    rw [hp]
    dsimp only
    rw [if_neg (by
      rw [Bool.and_eq_true, Bool.and_eq_true]
      intro hcond
      have := hcond.1.1
      rw [hpk] at this
      simp [truthyPk] at this)]
    rw [if_neg (by simp)]

/-- Witness for C10: the concrete unsaved self-referencing product. -/
theorem C10_witness :
    validate_chain arenaUnsaved 0 1 = .circular 42 42
    ∧ validate_integrity arenaUnsaved 0 = .ok := by
  have h := C10_unsaved_self_reference arenaUnsaved 0
    ⟨none, 42, "X", "", "", "", .obj [], 1, ⟨"cat", "", .obj []⟩, some 0⟩
    rfl rfl rfl 1 (by decide)
  exact ⟨h.1, h.2⟩

/-! ### The save orchestration: step order and commit atomicity -/

theorem sync_categories_pk (p : ProductRec) : (sync_categories p).pk = p.pk := by
  unfold sync_categories
  dsimp only
  split <;> split <;> rfl

/-- C3 counterexample: in a save whose validation fails, the executed steps
are slug resolution, denormalization, and only then the validation checks —
the cached category field is already refreshed although validation failed,
which the claimed order (validation before denormalization) forbids. -/
theorem C3_counterexample :
    (Product_save defaultSlugConfig hexStream saveArenaBad 0 [] 3 2 3).trace =
      [.slugStep, .denorm, .chainCheck, .integrityCheck, .schemaCheck]
    ∧ (Product_save defaultSlugConfig hexStream saveArenaBad 0 [] 3 2 3).error =
        some .attributesInvalid
    ∧ (Product_save defaultSlugConfig hexStream saveArenaBad 0 [] 3 2 3).inst.category =
        "Electronics" := by
  decide

/-- C3 (amended): during one save the steps run strictly in this order:
unique-slug resolution first, then denormalization of the cached
category/subcategory fields, then validation (variant chain, then variant
integrity, then schema/attribute validation), then commit — the executed
steps always form a prefix of that sequence, and all of it runs when the
save succeeds. -/
theorem C3_save_step_order (cfg : SlugConfig) (uuids : Nat → String)
    (arena : List ProductRec) (idx : Nat) (db : Db) (slugFuel chainFuel schemaFuel : Nat) :
    (∃ rest, (Product_save cfg uuids arena idx db slugFuel chainFuel schemaFuel).trace ++ rest =
      [.slugStep, .denorm, .chainCheck, .integrityCheck, .schemaCheck, .commitStep])
    ∧ (∀ p, arena[idx]? = some p →
        (Product_save cfg uuids arena idx db slugFuel chainFuel schemaFuel).error = none →
        (Product_save cfg uuids arena idx db slugFuel chainFuel schemaFuel).trace =
          [.slugStep, .denorm, .chainCheck, .integrityCheck, .schemaCheck, .commitStep]) := by
  unfold Product_save
  cases harena : arena[idx]? with
  | none =>
    refine ⟨⟨[.slugStep, .denorm, .chainCheck, .integrityCheck, .schemaCheck, .commitStep],
      rfl⟩, ?_⟩
    intro p hp
    simp at hp
  | some p =>
    dsimp only
    constructor
    · repeat' split
      all_goals exact ⟨_, rfl⟩
    · intro p' hp'
      repeat' split
      all_goals intro herr
      all_goals first
        | rfl
        | exact absurd herr (by simp)

/-- Witness for C3: a successful save executes the full amended sequence. -/
theorem C3_witness :
    (Product_save defaultSlugConfig hexStream saveArenaGood 0 [] 3 2 3).trace =
      [.slugStep, .denorm, .chainCheck, .integrityCheck, .schemaCheck, .commitStep] :=
  (C3_save_step_order defaultSlugConfig hexStream saveArenaGood 0 [] 3 2 3).2
    ⟨none, 7, "Phone", "", "", "", .obj [("ram", .num 8)], 1,
      ⟨"Electronics", "Phones", ramSchema⟩, none⟩ rfl (by decide)

/-- C8 counterexample: a save failing attribute validation persists nothing,
but the entity's in-memory state is not unchanged — its slug and cached
category were already written before validation failed. -/
theorem C8_counterexample :
    (Product_save defaultSlugConfig hexStream saveArenaBad 0 [] 3 2 3).error =
      some .attributesInvalid
    ∧ (saveArenaBad[0]?.map ProductRec.slug) = some ""
    ∧ (Product_save defaultSlugConfig hexStream saveArenaBad 0 [] 3 2 3).inst.slug = "phone"
    ∧ (saveArenaBad[0]?.map ProductRec.category) = some ""
    ∧ (Product_save defaultSlugConfig hexStream saveArenaBad 0 [] 3 2 3).inst.category =
        "Electronics" := by
  decide

/-- C8 (amended): every failure raised during a save prevents any partial
commit — the record store is unchanged and the entity remains unsaved (its pk
untouched), though the in-memory slug and cached category fields may already
have been recomputed before the failure. -/
theorem C8_no_partial_commit (cfg : SlugConfig) (uuids : Nat → String)
    (arena : List ProductRec) (idx : Nat) (db : Db) (slugFuel chainFuel schemaFuel : Nat)
    (e : SaveError)
    (herr : (Product_save cfg uuids arena idx db slugFuel chainFuel schemaFuel).error = some e) :
    (Product_save cfg uuids arena idx db slugFuel chainFuel schemaFuel).db = db
    ∧ (∀ p, arena[idx]? = some p →
        (Product_save cfg uuids arena idx db slugFuel chainFuel schemaFuel).inst.pk = p.pk) := by
  revert herr
  unfold Product_save
  cases harena : arena[idx]? with
  | none =>
    intro herr
    simp at herr
  | some p =>
    dsimp only
    repeat' split
    all_goals intro herr
    all_goals first
      | (refine ⟨rfl, fun p' hp' => ?_⟩
         injection hp' with hpe
         subst hpe
         first
           | rfl
           | rw [sync_categories_pk])
      | exact absurd herr (by simp)

/-- Witness for C8: the failing save left the store empty and the entity
unsaved. -/
theorem C8_witness :
    (Product_save defaultSlugConfig hexStream saveArenaBad 0 [] 3 2 3).db = ([] : Db)
    ∧ (Product_save defaultSlugConfig hexStream saveArenaBad 0 [] 3 2 3).inst.pk = none := by
  have h := C8_no_partial_commit defaultSlugConfig hexStream saveArenaBad 0 [] 3 2 3
    .attributesInvalid (by decide)
  exact ⟨h.1, h.2 ⟨none, 7, "Phone", "", "", "", .obj [("ram", .str "8")], 1,
    ⟨"Electronics", "Phones", ramSchema⟩, none⟩ rfl⟩

end Catalog
